import Mathlib

/-!
# Verification of the input-aspects reactive control core

A shallow embedding of the core of the `input-aspects` library
(`src/control.ts`, `src/focus/status.aspect.ts`, `src/data/data.aspect.ts`)
together with proofs of the specified properties.

JavaScript strict equality `===`/`!==` on primitive values is modelled by
decidable equality; freshly allocated objects (such as the `[value, rev]`
tuples stored by the converted control's inner tracker) are always `!==`
any previously stored object, which the embedding reflects directly at the
relevant points.
-/

namespace InputAspects

/-! ## Status flags (`src/focus/status.aspect.ts`)

`InStatus.Flags` is the record `{hasFocus, touched, edited}`.  The mutators
`markTouched`/`markEdited` and the combinators `updateFlags`/`combineFlags`
are transcribed from `InControlStatus` and the module-level helpers. -/

structure Flags where
  hasFocus : Bool
  touched : Bool
  edited : Bool
deriving DecidableEq, Repr

/-- `defaultFlags` constant of `status.aspect.ts`. -/
def defaultFlags : Flags := ⟨false, false, false⟩

/-- `InControlStatus.markTouched(touched = true)`:
    if turning off and currently touched, `touched` becomes `hasFocus` and
    `edited` is cleared; if turning on and not touched, only `touched` is set;
    otherwise the flags are not modified. -/
def markTouched (touched : Bool) (flags : Flags) : Flags :=
  if !touched then
    if flags.touched then
      -- Try to reset touched. Still touched if in focus. Not edited anyway.
      { flags with touched := flags.hasFocus, edited := false }
    else flags
  else if !flags.touched then
    -- Do not modify if already touched.
    { flags with touched := touched }
  else flags

/-- `InControlStatus.markEdited(edited = true)`:
    turning on also marks touched; turning off clears only `edited`;
    no-op when already in the requested state. -/
def markEdited (edited : Bool) (flags : Flags) : Flags :=
  if edited then
    if !flags.edited then
      -- Touched if edited
      { flags with touched := true, edited := edited }
    else flags
  else if flags.edited then
    -- Assume not edited
    { flags with edited := edited }
  else flags

/-- `updateFlags(flags, hasFocus, edited)` of `status.aspect.ts`: the update
    rule fed by the element's focus and input streams. -/
def updateFlags (flags : Flags) (hasFocus edited : Bool) : Flags :=
  let flags :=
    if hasFocus then { flags with hasFocus := hasFocus, touched := true }
    else { flags with hasFocus := hasFocus }
  if edited then { flags with edited := edited, touched := true } else flags

/-- One step of `combineFlags`'s `itsEach` loop over the children's flags:
    a touched child marks the aggregate touched; a focused child marks it
    focused and touched; an edited child marks it edited and touched. -/
def combineStep (result : Flags) (f : Flags) : Flags :=
  let result := if f.touched then { result with touched := true } else result
  let result :=
    if f.hasFocus then { result with hasFocus := true, touched := true } else result
  if f.edited then { result with edited := true, touched := true } else result

/-- `combineFlags(...flags)` of `status.aspect.ts`: fold of `combineStep`
    over the current children's flags, starting from all-false. -/
def combineFlags (flags : List Flags) : Flags :=
  flags.foldl combineStep ⟨false, false, false⟩

/-- `containerFlags` recomputes the aggregate from the current snapshot of
    child statuses only (the `dig_` re-subscription drops removed children),
    so the aggregate is a pure function of the current child flags list. -/
def containerFlags (snapshot : List Flags) : Flags := combineFlags snapshot

/-- The status invariant: `edited ⇒ touched` and `hasFocus ⇒ touched`. -/
def FlagsInv (f : Flags) : Prop :=
  (f.edited = true → f.touched = true) ∧ (f.hasFocus = true → f.touched = true)

instance (f : Flags) : Decidable (FlagsInv f) := by
  unfold FlagsInv; infer_instance

/-- Flags snapshots observable on a status aspect: the default flags, and
    anything produced from an observable snapshot by the two mutators,
    by the element update rule, or by a container re-aggregation. -/
inductive ReachableFlags : Flags → Prop
  | default : ReachableFlags defaultFlags
  | touch (b : Bool) {f : Flags} : ReachableFlags f → ReachableFlags (markTouched b f)
  | edit (b : Bool) {f : Flags} : ReachableFlags f → ReachableFlags (markEdited b f)
  | update (hF e : Bool) {f : Flags} :
      ReachableFlags f → ReachableFlags (updateFlags f hF e)
  | combine (fs : List Flags) : ReachableFlags (combineFlags fs)

/-- Characterisation of the `combineFlags` fold with an arbitrary accumulator. -/
lemma foldl_combineStep (r : Flags) (l : List Flags) :
    l.foldl combineStep r =
      ⟨r.hasFocus || l.any (·.hasFocus),
       r.touched || l.any (fun f => f.touched || f.hasFocus || f.edited),
       r.edited || l.any (·.edited)⟩ := by
  induction l generalizing r with
  | nil => simp
  | cons f l ih =>
    simp only [List.foldl_cons, List.any_cons, ih]
    cases r
    simp only [combineStep]
    cases f.touched <;> cases f.hasFocus <;> cases f.edited <;> simp

lemma combineFlags_eq (l : List Flags) :
    combineFlags l =
      ⟨l.any (·.hasFocus),
       l.any (fun f => f.touched || f.hasFocus || f.edited),
       l.any (·.edited)⟩ := by
  simpa using foldl_combineStep ⟨false, false, false⟩ l

lemma flagsInv_combineFlags (l : List Flags) : FlagsInv (combineFlags l) := by
  rw [combineFlags_eq]
  constructor
  · intro h
    simp only [List.any_eq_true] at h ⊢
    obtain ⟨f, hf, he⟩ := h
    exact ⟨f, hf, by simp [he]⟩
  · intro h
    simp only [List.any_eq_true] at h ⊢
    obtain ⟨f, hf, he⟩ := h
    exact ⟨f, hf, by simp [he]⟩

lemma flagsInv_markTouched (b : Bool) (f : Flags) (h : FlagsInv f) :
    FlagsInv (markTouched b f) := by
  obtain ⟨hF, tc, e⟩ := f
  obtain ⟨h1, h2⟩ := h
  cases b <;> cases hF <;> cases tc <;> cases e <;>
    simp_all [markTouched, FlagsInv]

lemma flagsInv_markEdited (b : Bool) (f : Flags) (h : FlagsInv f) :
    FlagsInv (markEdited b f) := by
  obtain ⟨hF, tc, e⟩ := f
  obtain ⟨h1, h2⟩ := h
  cases b <;> cases hF <;> cases tc <;> cases e <;>
    simp_all [markEdited, FlagsInv]

lemma flagsInv_updateFlags (f : Flags) (hF e : Bool) (h : FlagsInv f) :
    FlagsInv (updateFlags f hF e) := by
  obtain ⟨hF0, tc, e0⟩ := f
  obtain ⟨h1, h2⟩ := h
  cases hF <;> cases e <;> cases hF0 <;> cases tc <;> cases e0 <;>
    simp_all [updateFlags, FlagsInv]

/-- C5: `markTouched(false)` while touched downgrades `touched` to `hasFocus`
    and clears `edited`; `markTouched(true)` while untouched only sets
    `touched`; every other case leaves the flags unchanged, and the operation
    is idempotent on flag values in both directions. -/
theorem markTouched_spec (f : Flags) :
    (f.touched = true →
      markTouched false f = { f with touched := f.hasFocus, edited := false }) ∧
    (f.touched = false → markTouched true f = { f with touched := true }) ∧
    (f.touched = false → markTouched false f = f) ∧
    (f.touched = true → markTouched true f = f) ∧
    (∀ b, markTouched b (markTouched b f) = markTouched b f) := by
  obtain ⟨hF, tc, e⟩ := f
  revert hF tc e
  decide

/-- C5 witness: the concrete transitions at `{hasFocus := true, touched := true,
    edited := true}` and at the default flags. -/
theorem markTouched_spec_witness :
    markTouched false ⟨true, true, true⟩ = ⟨true, true, false⟩ ∧
    markTouched true defaultFlags = ⟨false, true, false⟩ ∧
    markTouched true (markTouched true defaultFlags) =
      markTouched true defaultFlags := by
  refine ⟨(markTouched_spec ⟨true, true, true⟩).1 (by decide), ?_, ?_⟩
  · exact (markTouched_spec defaultFlags).2.1 (by decide)
  · exact (markTouched_spec defaultFlags).2.2.2.2 true

/-- C6: `markEdited(true)` while unedited sets both `edited` and `touched`
    (leaving `hasFocus` alone); `markEdited(false)` while edited clears only
    `edited`; it is a no-op when the flags already are in the requested
    edited state. -/
theorem markEdited_spec (f : Flags) :
    (f.edited = false →
      markEdited true f = { f with touched := true, edited := true }) ∧
    (f.edited = true → markEdited false f = { f with edited := false }) ∧
    (f.edited = true → markEdited true f = f) ∧
    (f.edited = false → markEdited false f = f) := by
  obtain ⟨hF, tc, e⟩ := f
  revert hF tc e
  decide

/-- C6 witness: concrete transitions at the default flags and at
    `{hasFocus := true, touched := true, edited := true}`. -/
theorem markEdited_spec_witness :
    markEdited true defaultFlags = ⟨false, true, true⟩ ∧
    markEdited false ⟨true, true, true⟩ = ⟨true, true, false⟩ ∧
    markEdited false defaultFlags = defaultFlags := by
  refine ⟨(markEdited_spec defaultFlags).1 (by decide), ?_, ?_⟩
  · exact (markEdited_spec ⟨true, true, true⟩).2.1 (by decide)
  · exact (markEdited_spec defaultFlags).2.2.2 (by decide)

/-- C7: every observable flags snapshot — reachable from the default flags by
    mutator calls, element focus/edit updates and container re-aggregations —
    satisfies `edited ⇒ touched` and `hasFocus ⇒ touched`. -/
theorem reachableFlags_inv (f : Flags) (h : ReachableFlags f) : FlagsInv f := by
  induction h with
  | default => exact ⟨by simp [defaultFlags], by simp [defaultFlags]⟩
  | touch b _ ih => exact flagsInv_markTouched b _ ih
  | edit b _ ih => exact flagsInv_markEdited b _ ih
  | update hF e _ ih => exact flagsInv_updateFlags _ hF e ih
  | combine fs => exact flagsInv_combineFlags fs

/-- C7 witness: the invariant holds at the flags reached by marking the
    default flags edited. -/
theorem reachableFlags_inv_witness : FlagsInv (markEdited true defaultFlags) :=
  reachableFlags_inv _ (ReachableFlags.edit true ReachableFlags.default)

/-- C8: the container aggregate is the OR-fold of exactly the current
    children's flags (`hasFocus`/`edited` are disjunctions over children;
    `touched` is the disjunction of children's `touched`, `hasFocus` and
    `edited`), and re-aggregating after replacing child
    `B(touched, edited)` by `C(hasFocus)` leaves no residual `edited`. -/
theorem containerFlags_or_fold :
    (∀ l : List Flags,
      containerFlags l =
        ⟨l.any (·.hasFocus),
         l.any (fun f => f.touched || f.hasFocus || f.edited),
         l.any (·.edited)⟩) ∧
    containerFlags [⟨false, false, false⟩, ⟨false, true, true⟩] =
      ⟨false, true, true⟩ ∧
    containerFlags [⟨false, false, false⟩, ⟨true, true, false⟩] =
      ⟨true, true, false⟩ := by
  exact ⟨fun l => combineFlags_eq l, by decide, by decide⟩

/-! ## Aspect cache (`InControl._aspect`, `src/control.ts` lines 130–145)

Aspect keys are identified by reference identity: modelled as `Nat` ids.
`applyTo` may build an aspect whose *instance* is absent (`null`), but the
`InAspect.Applied` wrapper it returns is always an object — hence always
truthy in the `if (existing)` cache check — so absent instances are cached
exactly like present ones.  Allocation identity of the wrapper is modelled
by a fresh tag drawn from a counter, so "recomputing" would observably
produce a different wrapper. -/

structure AppliedAspect where
  /-- Allocation identity of the `Applied` wrapper object. -/
  tag : Nat
  /-- The aspect instance; `none` models a `null`/absent instance. -/
  inst : Option Nat
deriving DecidableEq, Repr

structure AspectCache where
  /-- The `_aspects` map, keyed by aspect-key identity. -/
  cache : List (Nat × AppliedAspect)
  /-- Fresh-allocation counter for `Applied` wrappers. -/
  nextTag : Nat
  /-- Log of the keys on which `aspect.applyTo(control)` was invoked. -/
  applyLog : List Nat
deriving DecidableEq, Repr

/-- The empty cache of a freshly constructed control. -/
def emptyAspects : AspectCache := ⟨[], 0, []⟩

/-- `InControl._aspect(aspect)`: return the cached application if present;
    otherwise invoke `applyTo` (the base class's `_applyAspect` declines, per
    `control.ts` line 157–161), store the result — even when its instance is
    absent — and return it.  `build k` is the instance `applyTo` constructs
    for key `k`. -/
def lookupAspect (build : Nat → Option Nat) (k : Nat) (s : AspectCache) :
    AppliedAspect × AspectCache :=
  match s.cache.lookup k with
  | some existing => (existing, s)
  | none =>
    let applied : AppliedAspect := ⟨s.nextTag, build k⟩
    (applied, ⟨(k, applied) :: s.cache, s.nextTag + 1, s.applyLog ++ [k]⟩)

/-- A sequence of `aspect(key)` calls on one control. -/
def lookupMany (build : Nat → Option Nat) (ks : List Nat) (s : AspectCache) :
    AspectCache :=
  ks.foldl (fun s k => (lookupAspect build k s).2) s

/-- Cache coherence: the `applyTo` log has no duplicates and mirrors the
    cached key set. -/
def CacheInv (s : AspectCache) : Prop :=
  s.applyLog.Nodup ∧ ∀ k, k ∈ s.applyLog ↔ (s.cache.lookup k).isSome

lemma cacheInv_empty : CacheInv emptyAspects := by
  constructor
  · exact List.nodup_nil
  · intro k; simp [emptyAspects]

lemma cacheInv_lookupAspect (build : Nat → Option Nat) (k : Nat)
    (s : AspectCache) (h : CacheInv s) : CacheInv (lookupAspect build k s).2 := by
  obtain ⟨hnd, hmem⟩ := h
  unfold lookupAspect
  cases hc : s.cache.lookup k with
  | some a => exact ⟨hnd, hmem⟩
  | none =>
    refine ⟨?_, ?_⟩
    · have hk : k ∉ s.applyLog := by
        intro hx
        have := (hmem k).mp hx
        rw [hc] at this
        simp at this
      simpa [List.nodup_append] using And.intro hnd hk
    · intro k'
      by_cases hkk : k' = k
      · subst hkk
        simp [List.lookup_cons]
      · have hbe : (k' == k) = false := by simp [hkk]
        simp [List.lookup_cons, hbe, hkk, hmem k']

lemma cacheInv_lookupMany (build : Nat → Option Nat) (ks : List Nat)
    (s : AspectCache) (h : CacheInv s) : CacheInv (lookupMany build ks s) := by
  induction ks generalizing s with
  | nil => exact h
  | cons k ks ih =>
    exact ih _ (cacheInv_lookupAspect build k s h)

lemma lookupAspect_cached (build : Nat → Option Nat) (k : Nat) (s : AspectCache)
    (a : AppliedAspect) (h : s.cache.lookup k = some a) :
    lookupAspect build k s = (a, s) := by
  unfold lookupAspect
  rw [h]

/-- C2: (i) a repeated `aspect(k)` lookup returns the identical applied
    aspect and leaves the control's cache untouched — no recomputation, even
    when the cached instance is absent; (ii) over any sequence of lookups on
    a fresh control, `applyTo` runs at most once per key. -/
theorem aspect_identity_stable (build : Nat → Option Nat) (k : Nat)
    (s : AspectCache) :
    (lookupAspect build k (lookupAspect build k s).2 =
       ((lookupAspect build k s).1, (lookupAspect build k s).2)) ∧
    (build k = none →
      ((lookupAspect build k s).2.cache.lookup k).isSome ∧
      (lookupAspect build k (lookupAspect build k s).2).1 =
        (lookupAspect build k s).1) ∧
    (∀ ks, ((lookupMany build ks emptyAspects).applyLog.count k ≤ 1)) := by
  have hstable : lookupAspect build k (lookupAspect build k s).2 =
      ((lookupAspect build k s).1, (lookupAspect build k s).2) := by
    unfold lookupAspect
    cases hc : s.cache.lookup k with
    | some a => simp [hc]
    | none => simp [List.lookup_cons]
  refine ⟨hstable, ?_, ?_⟩
  · intro _
    refine ⟨?_, by rw [hstable]⟩
    unfold lookupAspect
    cases hc : s.cache.lookup k with
    | some a => simp [hc]
    | none => simp [List.lookup_cons]
  · intro ks
    have hinv := cacheInv_lookupMany build ks emptyAspects cacheInv_empty
    exact List.nodup_iff_count_le_one.mp hinv.1 k

/-- C2 witness: on a fresh control, looking key `7` up twice (with an absent
    instance built) returns the same applied aspect both times. -/
theorem aspect_identity_stable_witness :
    lookupAspect (fun _ => none) 7
        (lookupAspect (fun _ => none) 7 emptyAspects).2 =
      ((lookupAspect (fun _ => none) 7 emptyAspects).1,
       (lookupAspect (fun _ => none) 7 emptyAspects).2) ∧
    ((lookupAspect (fun _ => none) 7 emptyAspects).2.cache.lookup 7).isSome ∧
    (lookupMany (fun _ => none) [7, 7, 7] emptyAspects).applyLog.count 7 ≤ 1 :=
  ⟨(aspect_identity_stable (fun _ => none) 7 emptyAspects).1,
   ((aspect_identity_stable (fun _ => none) 7 emptyAspects).2.1 rfl).1,
   (aspect_identity_stable (fun _ => none) 7 emptyAspects).2.2 [7, 7, 7]⟩

/-! ## Converted control (`InConverted`, `src/control.ts` lines 248–336)

The converted control pairs a source tracker (`src`) with an inner tracker
`_it` holding `[convertedValue, revision]`, a `lastRev` counter and an
in-flight `backward` slot.  Event receivers fire synchronously; because the
inner tracker stores a freshly allocated tuple on every assignment, its
receivers fire on every assignment, while the outer emitter (line 285–289)
and the source tracker fire only when values differ under `!==`.

The interpreter below threads an explicit state through the receivers in
their subscription order.  A fuel argument makes the mutual recursion
between "assign the inner tracker" and "assign the source tracker" total;
`none` marks fuel exhaustion, and every theorem proves a `some` result, so
no proved run ever hits the fuel bound. -/

/-- The `converters` object produced by `by(src, this)`: the value
    conversion `set : From → To` and reverse conversion `get : To → From`. -/
structure Converters (F T : Type) where
  set : F → T
  get : T → F

/-- The mutable state of an `InConverted` control and its source:
    current values, the inner tracker's revision, `lastRev`, the in-flight
    `backward` slot, the events delivered to external subscribers of both
    controls, and how many times each conversion function has run. -/
structure ConvState (F T : Type) where
  /-- `src.it`, the source control's current value. -/
  srcVal : F
  /-- First component of `this._it.it`: the converted value. -/
  convVal : T
  /-- Second component of `this._it.it`: the stored revision. -/
  convRev : Nat
  /-- The `lastRev` counter. -/
  lastRev : Nat
  /-- The in-flight `backward` value slot. -/
  backward : Option F
  /-- `(new, old)` events sent on the converted control's emitter. -/
  emitted : List (T × T)
  /-- `(new, old)` events sent to the source's external subscribers. -/
  srcEmitted : List (F × F)
  /-- Number of `converters.set` invocations. -/
  setCalls : Nat
  /-- Number of `converters.get` invocations. -/
  getCalls : Nat
deriving DecidableEq, Repr

mutual

/-- `this._it.it = [v, rev]` (a fresh tuple, so both `_it` receivers fire):
    the emitter receiver (line 285) sends `(v, old)` when the converted
    values differ, then the backward receiver (line 295) — when `rev`
    differs from `lastRev` — adopts `rev`, computes `get v` into the
    `backward` slot, writes it to the source and clears the slot. -/
def setInner {F T : Type} [DecidableEq F] [DecidableEq T] (cv : Converters F T) :
    Nat → T → Nat → ConvState F T → Option (ConvState F T)
  | 0, _, _, _ => none
  | fuel + 1, v, rev, s =>
    let old := s.convVal
    let s1 : ConvState F T := { s with convVal := v, convRev := rev }
    let s2 : ConvState F T :=
      if v ≠ old then { s1 with emitted := s1.emitted ++ [(v, old)] } else s1
    if rev ≠ s2.lastRev then
      let b := cv.get v
      let s3 : ConvState F T :=
        { s2 with lastRev := rev, getCalls := s2.getCalls + 1, backward := some b }
      (srcWrite cv fuel b s3).map fun s4 => { s4 with backward := none }
    else
      some s2

/-- `src.it = v`: the source tracker updates and fires only when the value
    differs; the converted control's receiver (line 290) skips the value it
    itself wrote back (`value !== backward`), otherwise computes `set v`,
    bumps `lastRev` and assigns the inner tracker. -/
def srcWrite {F T : Type} [DecidableEq F] [DecidableEq T] (cv : Converters F T) :
    Nat → F → ConvState F T → Option (ConvState F T)
  | 0, _, _ => none
  | fuel + 1, v, s =>
    if v = s.srcVal then some s
    else
      let s1 : ConvState F T :=
        { s with srcVal := v, srcEmitted := s.srcEmitted ++ [(v, s.srcVal)] }
      if s1.backward = some v then some s1
      else
        let w := cv.set v
        setInner cv fuel w (s1.lastRev + 1)
          { s1 with setCalls := s1.setCalls + 1, lastRev := s1.lastRev + 1 }

end

variable {F T : Type} [DecidableEq F] [DecidableEq T]

/-- An external (physical) edit of the source control. -/
def writeSource (cv : Converters F T) (fuel : Nat) (v : F) (s : ConvState F T) :
    Option (ConvState F T) :=
  srcWrite cv fuel v s

/-- An external (physical) edit of the converted control: the `it` setter
    (lines 322–329) reads `[prevValue, prevRev]` and assigns
    `[value, prevRev + 1]` only when the value differs. -/
def writeConv (cv : Converters F T) (fuel : Nat) (v : T) (s : ConvState F T) :
    Option (ConvState F T) :=
  if v = s.convVal then some s
  else setInner cv fuel v (s.convRev + 1) s

/-- The state right after the constructor:
    `this._it = trackValue([converters.set(src.it), 0])`, `lastRev = 0`,
    no in-flight backward value (`set` has run once, on the initial value). -/
def initConv (cv : Converters F T) (v0 : F) : ConvState F T :=
  { srcVal := v0, convVal := cv.set v0, convRev := 0, lastRev := 0,
    backward := none, emitted := [], srcEmitted := [], setCalls := 1, getCalls := 0 }

/-- No propagation in flight: the backward slot is clear and the stored
    revision is the last one seen. -/
def Quiescent (s : ConvState F T) : Prop :=
  s.backward = none ∧ s.lastRev = s.convRev

instance (s : ConvState F T) : Decidable (Quiescent s) := by
  unfold Quiescent; infer_instance

/-- C1: from a quiescent state, (forward) an external source edit runs `set`
    exactly once, emits exactly one source event (the edit itself — nothing
    is written back, `get` never runs) and at most one converted-control
    event; (backward) an external converted edit runs `get` exactly once,
    emits exactly one converted event, writes the source at most once and
    never re-runs `set`; both leave the state quiescent with the slot clear. -/
theorem inConverted_no_reentrant_propagation (cv : Converters F T)
    (s : ConvState F T) (v : F) (w : T) (hq : Quiescent s)
    (hv : v ≠ s.srcVal) (hw : w ≠ s.convVal) :
    writeSource cv 2 v s =
      some { s with
               srcVal := v
               srcEmitted := s.srcEmitted ++ [(v, s.srcVal)]
               setCalls := s.setCalls + 1
               lastRev := s.convRev + 1
               convRev := s.convRev + 1
               convVal := cv.set v
               emitted := if cv.set v ≠ s.convVal then
                   s.emitted ++ [(cv.set v, s.convVal)]
                 else s.emitted } ∧
    writeConv cv 2 w s =
      some { s with
               convVal := w
               convRev := s.convRev + 1
               lastRev := s.convRev + 1
               emitted := s.emitted ++ [(w, s.convVal)]
               getCalls := s.getCalls + 1
               backward := none
               srcVal := cv.get w
               srcEmitted := if cv.get w ≠ s.srcVal then
                   s.srcEmitted ++ [(cv.get w, s.srcVal)]
                 else s.srcEmitted } := by
  obtain ⟨hb, hl⟩ := hq
  constructor
  · simp [writeSource, srcWrite, setInner, hv, hb, hl]
    split <;> simp
  · simp only [writeConv, setInner, srcWrite]
    rw [if_neg hw]
    simp [hw, hb, hl, Nat.succ_ne_self]
    split <;> simp_all

/-- The spec's example conversion pair over an integer source:
    `set = x => x + 1`, `get = y => y - 1`. -/
def incConv : Converters Int Int := ⟨fun x => x + 1, fun y => y - 1⟩

/-- C1 witness: with `set = x => x + 1`, `get = y => y - 1` over a source
    holding `0`, writing `5` to the source produces exactly one source event
    and one converted event with no write-back, and writing `7` to the
    converted control produces exactly one converted event and one source
    event with no forward re-conversion. -/
theorem inConverted_no_reentrant_propagation_witness :
    writeSource incConv 2 5 (initConv incConv 0) =
      some ⟨5, 6, 1, 1, none, [(6, 1)], [(5, 0)], 2, 0⟩ ∧
    writeConv incConv 2 7 (initConv incConv 0) =
      some ⟨6, 7, 1, 1, none, [(7, 1)], [(6, 0)], 1, 1⟩ := by
  have h := inConverted_no_reentrant_propagation incConv (initConv incConv 0)
    5 7 (by decide) (by decide) (by decide)
  exact ⟨by rw [h.1]; decide, by rw [h.2]; decide⟩

/-- Every event ever sent on the converted control's emitter carries a new
    value different from the old one (the guard at line 286). -/
def EmittedOk (s : ConvState F T) : Prop := ∀ p ∈ s.emitted, p.1 ≠ p.2

instance (s : ConvState F T) : Decidable (EmittedOk s) := by
  unfold EmittedOk; infer_instance

omit [DecidableEq F] [DecidableEq T] in
lemma emittedOk_append (s : ConvState F T) (p : T × T) (h : EmittedOk s)
    (hp : p.1 ≠ p.2) : ∀ q ∈ s.emitted ++ [p], q.1 ≠ q.2 := by
  intro q hq
  rcases List.mem_append.mp hq with hq | hq
  · exact h q hq
  · simp at hq
    subst hq
    exact hp

/-- The interpreter extends `emitted` only with distinct-value pairs,
    whatever the fuel and starting state. -/
lemma emit_only_on_change (cv : Converters F T) :
    ∀ fuel : Nat,
      (∀ (v : T) (rev : Nat) (s s' : ConvState F T),
        setInner cv fuel v rev s = some s' → EmittedOk s → EmittedOk s') ∧
      (∀ (v : F) (s s' : ConvState F T),
        srcWrite cv fuel v s = some s' → EmittedOk s → EmittedOk s') := by
  intro fuel
  induction fuel with
  | zero =>
    exact ⟨fun v rev s s' h => by simp [setInner] at h,
           fun v s s' h => by simp [srcWrite] at h⟩
  | succ n ih =>
    constructor
    · intro v rev s s' h hok
      simp only [setInner] at h
      by_cases hv : v = s.convVal <;> by_cases hr : rev = s.lastRev <;>
          simp only [hv, hr, ne_eq, not_true_eq_false, not_false_eq_true,
            if_true, if_false, ite_true, ite_false, Option.map_eq_some'] at h
      · cases h
        exact hok
      · obtain ⟨s4, h4, rfl⟩ := h
        have h3 := ih.2 _ _ _ h4 (by simpa [EmittedOk] using hok)
        simpa [EmittedOk] using h3
      · cases h
        simpa [EmittedOk] using emittedOk_append s (v, s.convVal) hok hv
      · obtain ⟨s4, h4, rfl⟩ := h
        have h2 := emittedOk_append s (v, s.convVal) hok hv
        have h3 := ih.2 _ _ _ h4 (by simpa [EmittedOk] using h2)
        simpa [EmittedOk] using h3
    · intro v s s' h hok
      simp only [srcWrite] at h
      by_cases hv : v = s.srcVal
      · simp only [hv, if_true, ite_true] at h
        cases h
        exact hok
      · simp only [hv, if_false, ite_false] at h
        by_cases hback : s.backward = some v
        · simp only [hback, if_true, ite_true] at h
          cases h
          exact hok
        · simp only [hback, if_false, ite_false] at h
          have h3 := ih.1 _ _ _ _ h (by simpa [EmittedOk] using hok)
          exact h3

/-- C10: writing the current converted value back to the converted control
    is a complete no-op (same stored value, same revision, no event, no
    source write), and — for any edit of either side — every event the
    converted control ever emits has a new value different from the old. -/
theorem inConverted_equal_write_noop (cv : Converters F T) (fuel : Nat)
    (s : ConvState F T) :
    (∀ w : T, w = s.convVal → writeConv cv fuel w s = some s) ∧
    (∀ (v : F) (s' : ConvState F T),
      writeSource cv fuel v s = some s' → EmittedOk s → EmittedOk s') ∧
    (∀ (w : T) (s' : ConvState F T),
      writeConv cv fuel w s = some s' → EmittedOk s → EmittedOk s') := by
  refine ⟨?_, ?_, ?_⟩
  · intro w hw
    simp [writeConv, hw]
  · intro v s' h hok
    exact (emit_only_on_change cv fuel).2 v s s' h hok
  · intro w s' h hok
    by_cases hw : w = s.convVal
    · simp only [writeConv, hw, if_true, ite_true] at h
      cases h
      exact hok
    · simp only [writeConv, hw, if_false, ite_false] at h
      exact (emit_only_on_change cv fuel).1 w _ s s' h hok

/-- C10 witness: writing `1` (the current converted value) to the converted
    control built over a source holding `0` changes nothing, and the state
    reached by then writing `5` to the source has only distinct-value events. -/
theorem inConverted_equal_write_noop_witness :
    writeConv incConv 2 1 (initConv incConv 0) = some (initConv incConv 0) ∧
    EmittedOk (⟨5, 6, 1, 1, none, [(6, 1)], [(5, 0)], 2, 0⟩ : ConvState Int Int) := by
  have h := inConverted_equal_write_noop incConv 2 (initConv incConv 0)
  exact ⟨h.1 1 (by decide),
         h.2.1 5 ⟨5, 6, 1, 1, none, [(6, 1)], [(5, 0)], 2, 0⟩ (by decide) (by decide)⟩

/-! ## Converted control with throwing conversions (C4)

The same `InConverted` wiring, with `set`/`get` allowed to throw.  A run
returns the state reached so far together with the exception (if any) that
propagated synchronously out of the triggering write.  JavaScript evaluation
order is kept: in the forward receiver `converters.set(value)` is evaluated
before `++lastRev`, so a throwing `set` leaves `lastRev` alone; in the
backward receiver `lastRev = rev` precedes `converters.get(value)`, and the
`try`/`finally` clears the `backward` slot whether or not `src.it = backward`
throws. -/

structure ConvertersE (F T E : Type) where
  set : F → Except E T
  get : T → Except E F

mutual

/-- `this._it.it = [v, rev]` with throwing conversions. -/
def setInnerE {F T E : Type} [DecidableEq F] [DecidableEq T]
    (cv : ConvertersE F T E) :
    Nat → T → Nat → ConvState F T → Option (ConvState F T × Option E)
  | 0, _, _, _ => none
  | fuel + 1, v, rev, s =>
    let old := s.convVal
    let s1 : ConvState F T := { s with convVal := v, convRev := rev }
    let s2 : ConvState F T :=
      if v ≠ old then { s1 with emitted := s1.emitted ++ [(v, old)] } else s1
    if rev ≠ s2.lastRev then
      let s2' : ConvState F T :=
        { s2 with lastRev := rev, getCalls := s2.getCalls + 1 }
      match cv.get v with
      | .error e => some (s2', some e)
      | .ok b =>
        (srcWriteE cv fuel b { s2' with backward := some b }).map
          fun r => ({ r.1 with backward := none }, r.2)
    else
      some (s2, none)

/-- `src.it = v` with throwing conversions. -/
def srcWriteE {F T E : Type} [DecidableEq F] [DecidableEq T]
    (cv : ConvertersE F T E) :
    Nat → F → ConvState F T → Option (ConvState F T × Option E)
  | 0, _, _ => none
  | fuel + 1, v, s =>
    if v = s.srcVal then some (s, none)
    else
      let s1 : ConvState F T :=
        { s with srcVal := v, srcEmitted := s.srcEmitted ++ [(v, s.srcVal)] }
      if s1.backward = some v then some (s1, none)
      else
        match cv.set v with
        | .error e => some ({ s1 with setCalls := s1.setCalls + 1 }, some e)
        | .ok w =>
          setInnerE cv fuel w (s1.lastRev + 1)
            { s1 with setCalls := s1.setCalls + 1, lastRev := s1.lastRev + 1 }

end

variable {E : Type}

/-- An external source edit, with throwing conversions. -/
def writeSourceE (cv : ConvertersE F T E) (fuel : Nat) (v : F)
    (s : ConvState F T) : Option (ConvState F T × Option E) :=
  srcWriteE cv fuel v s

/-- An external converted-control edit, with throwing conversions. -/
def writeConvE (cv : ConvertersE F T E) (fuel : Nat) (v : T)
    (s : ConvState F T) : Option (ConvState F T × Option E) :=
  if v = s.convVal then some (s, none)
  else setInnerE cv fuel v (s.convRev + 1) s

/-- Runs of the throwing interpreter keep the revision counters aligned and
    never leave a backward value in flight, on every exit path — normal or
    throwing. -/
lemma convE_slot_release (cv : ConvertersE F T E) :
    ∀ fuel : Nat,
      (∀ (v : T) (rev : Nat) (s : ConvState F T) (r : ConvState F T × Option E),
        setInnerE cv fuel v rev s = some r →
          r.1.convRev = r.1.lastRev ∧ (s.backward = none → r.1.backward = none)) ∧
      (∀ (v : F) (s : ConvState F T) (r : ConvState F T × Option E),
        srcWriteE cv fuel v s = some r →
          (s.convRev = s.lastRev → r.1.convRev = r.1.lastRev) ∧
          (s.backward = none → r.1.backward = none)) := by
  intro fuel
  induction fuel with
  | zero =>
    exact ⟨fun v rev s r h => by simp [setInnerE] at h,
           fun v s r h => by simp [srcWriteE] at h⟩
  | succ n ih =>
    constructor
    · intro v rev s r h
      simp only [setInnerE] at h
      split at h <;> split at h
      · -- change event emitted, backward receiver fires
        revert h
        cases hget : cv.get v with
        | error e =>
          intro h
          simp only [Option.some.injEq] at h
          subst h
          exact ⟨rfl, fun hb => by simpa using hb⟩
        | ok b =>
          intro h
          rw [Option.map_eq_some'] at h
          obtain ⟨r4, h4, rfl⟩ := h
          exact ⟨(ih.2 _ _ _ h4).1 rfl, fun _ => rfl⟩
      · -- change event emitted, no backward propagation
        rename_i hrev
        injection h with h
        subst h
        exact ⟨by simpa using not_not.mp hrev, fun hb => by simpa using hb⟩
      · -- equal value (no event), backward receiver fires
        revert h
        cases hget : cv.get v with
        | error e =>
          intro h
          simp only [Option.some.injEq] at h
          subst h
          exact ⟨rfl, fun hb => by simpa using hb⟩
        | ok b =>
          intro h
          rw [Option.map_eq_some'] at h
          obtain ⟨r4, h4, rfl⟩ := h
          exact ⟨(ih.2 _ _ _ h4).1 rfl, fun _ => rfl⟩
      · -- equal value, no backward propagation
        rename_i hrev
        injection h with h
        subst h
        exact ⟨by simpa using not_not.mp hrev, fun hb => by simpa using hb⟩
    · intro v s r h
      simp only [srcWriteE] at h
      split at h
      · injection h with h
        subst h
        exact ⟨fun hc => hc, fun hb => hb⟩
      · split at h
        · injection h with h
          subst h
          exact ⟨fun hc => hc, fun hb => by simpa using hb⟩
        · revert h
          cases hset : cv.set v with
          | error e =>
            intro h
            injection h with h
            subst h
            exact ⟨fun hc => by simpa using hc, fun hb => by simpa using hb⟩
          | ok w =>
            intro h
            have h1 := (ih.1 _ _ _ _ h).1
            have h2 := (ih.1 _ _ _ _ h).2
            exact ⟨fun _ => h1, fun hb => h2 (by simpa using hb)⟩

/-- C4: from a quiescent state, (i) any edit of either side — whether the
    conversions return or throw — leaves the backward slot clear and the
    state quiescent; (ii) a converted edit whose `get` throws `e` propagates
    `e` synchronously to the writer, after the value and revision were
    stored and the change event emitted, with the slot still clear; (iii) a
    source edit whose `set` throws `e` propagates `e` synchronously to the
    writer, with `lastRev` untouched and the slot clear; (iv) from any
    quiescent state (such as the one a throw leaves behind), a converted
    edit whose `get` succeeds propagates to the source normally. -/
theorem inConverted_throw_releases_slot (cv : ConvertersE F T E)
    (s : ConvState F T) (hq : Quiescent s) :
    (∀ (fuel : Nat) (v : F) (r : ConvState F T × Option E),
      writeSourceE cv fuel v s = some r → r.1.backward = none ∧ Quiescent r.1) ∧
    (∀ (fuel : Nat) (w : T) (r : ConvState F T × Option E),
      writeConvE cv fuel w s = some r → r.1.backward = none ∧ Quiescent r.1) ∧
    (∀ (fuel : Nat) (w : T) (e : E), w ≠ s.convVal → cv.get w = .error e →
      writeConvE cv (fuel + 1) w s =
        some ({ s with
                  convVal := w
                  convRev := s.convRev + 1
                  lastRev := s.convRev + 1
                  emitted := s.emitted ++ [(w, s.convVal)]
                  getCalls := s.getCalls + 1 }, some e)) ∧
    (∀ (fuel : Nat) (v : F) (e : E), v ≠ s.srcVal → cv.set v = .error e →
      writeSourceE cv (fuel + 1) v s =
        some ({ s with
                  srcVal := v
                  srcEmitted := s.srcEmitted ++ [(v, s.srcVal)]
                  setCalls := s.setCalls + 1 }, some e)) ∧
    (∀ (fuel : Nat) (w : T) (b : F), w ≠ s.convVal → cv.get w = .ok b →
      writeConvE cv (fuel + 2) w s =
        some ({ s with
                  convVal := w
                  convRev := s.convRev + 1
                  lastRev := s.convRev + 1
                  emitted := s.emitted ++ [(w, s.convVal)]
                  getCalls := s.getCalls + 1
                  backward := none
                  srcVal := b
                  srcEmitted := if b ≠ s.srcVal then
                      s.srcEmitted ++ [(b, s.srcVal)]
                    else s.srcEmitted }, none)) := by
  obtain ⟨hb, hl⟩ := hq
  refine ⟨?_, ?_, ?_, ?_, ?_⟩
  · intro fuel v r h
    have h1 := (convE_slot_release cv fuel).2 v s r h
    have hbw := h1.2 hb
    exact ⟨hbw, hbw, (h1.1 hl.symm).symm⟩
  · intro fuel w r h
    by_cases hw : w = s.convVal
    · simp only [writeConvE, hw, if_true, ite_true] at h
      cases h
      exact ⟨hb, hb, hl⟩
    · simp only [writeConvE, hw, if_false, ite_false] at h
      have h1 := (convE_slot_release cv fuel).1 w _ s r h
      have hbw := h1.2 hb
      exact ⟨hbw, hbw, h1.1.symm⟩
  · intro fuel w e hw hget
    simp only [writeConvE, setInnerE]
    rw [if_neg hw]
    simp [hw, hb, hl, hget, Nat.succ_ne_self]
  · intro fuel v e hv hset
    simp only [writeSourceE, srcWriteE]
    rw [if_neg hv]
    simp [hv, hb, hset]
  · intro fuel w b hw hget
    simp only [writeConvE, setInnerE, srcWriteE]
    rw [if_neg hw]
    simp [hw, hb, hl, hget, Nat.succ_ne_self]
    split <;> simp_all

/-- Example throwing conversion pair: `set = x => x + 1` never throws,
    `get` throws on `9` and otherwise returns `y - 1`. -/
def throwConv : ConvertersE Int Int String :=
  ⟨fun x => .ok (x + 1),
   fun y => if y = 9 then .error "boom" else .ok (y - 1)⟩

/-- C4 witness: over a source holding `0` (converted value `1`), writing `9`
    to the converted control makes `get` throw "boom", which reaches the
    caller while the slot stays clear; from the very state the throw left
    behind, writing `7` then propagates to the source normally. -/
theorem inConverted_throw_releases_slot_witness :
    writeConvE throwConv 1 9 (⟨0, 1, 0, 0, none, [], [], 1, 0⟩ : ConvState Int Int) =
      some (⟨0, 9, 1, 1, none, [(9, 1)], [], 1, 1⟩, some "boom") ∧
    writeConvE throwConv 2 7 (⟨0, 9, 1, 1, none, [(9, 1)], [], 1, 1⟩ : ConvState Int Int) =
      some (⟨6, 7, 2, 2, none, [(9, 1), (7, 9)], [(6, 0)], 1, 2⟩, none) := by
  have h1 := (inConverted_throw_releases_slot throwConv
      (⟨0, 1, 0, 0, none, [], [], 1, 0⟩ : ConvState Int Int) (by decide)).2.2.1
      0 9 "boom" (by decide) (by rfl)
  have h2 := (inConverted_throw_releases_slot throwConv
      (⟨0, 9, 1, 1, none, [(9, 1)], [], 1, 1⟩ : ConvState Int Int) (by decide)).2.2.2.2
      0 7 6 (by decide) (by rfl)
  exact ⟨by rw [h1]; rfl, by rw [h2]; rfl⟩

/-! ## Termination propagation (C3)

From `src/control.ts`: `src.on(...).whenDone(reason => this.done(reason))`
(line 290–294) forwards the source's termination to the converted control;
`done(reason)` is `this._it.done(reason)` (line 331–334); and
`this._it.on(...).whenDone(reason => on.done(reason))` (line 285–289)
forwards the inner tracker's termination to the converted control's emitter,
which is what external subscribers — including a further conversion's
`src.on` subscription and aspect streams such as the Data aspect's
`afterEventFromAll({value: control, ...})` keeper — depend on.  A supply is
done at most once; later `done` calls are ignored.  Reasons are user data,
modelled as `Int`.

The model tracks a source control, an aspect stream applied to it, a
converted control `conv1` (inner tracker, emitter and an applied aspect
stream) and a second-order conversion `conv2` built over `conv1`, plus a log
of every termination event delivered, in delivery order. -/

structure TermState where
  srcDone : Option Int
  srcAspectDone : Option Int
  conv1Done : Option Int
  conv1EmitterDone : Option Int
  conv1AspectDone : Option Int
  conv2Done : Option Int
  conv2EmitterDone : Option Int
  doneLog : List (String × Int)
deriving DecidableEq, Repr

/-- All streams alive, nothing delivered. -/
def termAlive : TermState := ⟨none, none, none, none, none, none, none, []⟩

/-- `conv2.done(r)`: terminates `conv2`'s inner tracker, whose `whenDone`
    terminates `conv2`'s emitter; no-op when already done. -/
def doneConv2 (r : Int) (s : TermState) : TermState :=
  if s.conv2Done.isSome then s
  else
    { s with
        conv2Done := some r
        conv2EmitterDone := some r
        doneLog := s.doneLog ++ [("conv2 tracker", r), ("conv2 emitter", r)] }

/-- `conv1.done(r)`: terminates `conv1`'s inner tracker, hence its emitter
    and its applied aspect stream, and — through `conv2`'s source
    subscription `whenDone` — `conv2`; no-op when already done. -/
def doneConv1 (r : Int) (s : TermState) : TermState :=
  if s.conv1Done.isSome then s
  else
    doneConv2 r
      { s with
          conv1Done := some r
          conv1EmitterDone := some r
          conv1AspectDone := some r
          doneLog := s.doneLog ++
            [("conv1 tracker", r), ("conv1 emitter", r), ("conv1 aspect", r)] }

/-- `src.done(r)`: terminates the source, hence the aspect streams applied
    to it and — through the converted control's `whenDone` at line 294 —
    `conv1` and transitively `conv2`; no-op when already done. -/
def doneSource (r : Int) (s : TermState) : TermState :=
  if s.srcDone.isSome then s
  else
    doneConv1 r
      { s with
          srcDone := some r
          srcAspectDone := some r
          doneLog := s.doneLog ++ [("src", r), ("src aspect", r)] }

lemma doneConv2_srcDone (r : Int) (s : TermState) :
    (doneConv2 r s).srcDone = s.srcDone := by
  unfold doneConv2
  split <;> rfl

lemma doneConv1_srcDone (r : Int) (s : TermState) :
    (doneConv1 r s).srcDone = s.srcDone := by
  unfold doneConv1
  split
  · rfl
  · rw [doneConv2_srcDone]

/-- C3: closing the source with reason `r` terminates every aspect applied
    to it, every control converted from it (directly or transitively) and
    their aspect streams, all with the same reason `r` and exactly once per
    derived stream (each stream appears exactly once in the delivery log);
    closing again is a no-op; and closing a converted control never closes
    its source (nor does closing a second-order conversion close the first). -/
theorem termination_forwarding (r rr : Int) (s : TermState) :
    doneSource r termAlive =
      ⟨some r, some r, some r, some r, some r, some r, some r,
       [("src", r), ("src aspect", r),
        ("conv1 tracker", r), ("conv1 emitter", r), ("conv1 aspect", r),
        ("conv2 tracker", r), ("conv2 emitter", r)]⟩ ∧
    doneSource rr (doneSource r s) = doneSource r s ∧
    (doneConv1 r s).srcDone = s.srcDone ∧
    (doneConv2 r s).srcDone = s.srcDone ∧
    (doneConv2 r s).conv1Done = s.conv1Done := by
  refine ⟨by simp [doneSource, doneConv1, doneConv2, termAlive], ?_,
    doneConv1_srcDone r s, doneConv2_srcDone r s, ?_⟩
  · by_cases hs : s.srcDone.isSome
    · simp [doneSource, hs]
    · simp [doneSource, hs, doneConv1_srcDone]
  · unfold doneConv2
    split <;> rfl

/-! ## Data aspect (`src/data/data.aspect.ts`, C9)

The Data aspect emits `InMode.hasData(mode) ? value : undefined` on every
value-or-mode change.  The `InMode` aspect itself (`mode.aspect.ts`) is not
among the sampled sources, so its value type is modelled from the spec; the
per-field recursive suppression for composite values (spec §3 "a partial,
per-field optional structural copy of `V` ... recursively") is likewise
modelled from the spec, with the leaf rule taken verbatim from
`data.aspect.ts`. -/

/-- Modelled from the spec: the Input Mode permission state
    (`mode.aspect.ts` is not among the sampled sources) — enabled,
    read-only, or disabled. -/
inductive InModeValue where
  | on : InModeValue
  | ro : InModeValue
  | off : InModeValue
deriving DecidableEq, Repr

/-- Modelled from the spec: `InMode.hasData(mode)` — whether the mode lets
    the control's value participate in submitted data ("when input mode is
    `off` the data is `undefined`", `data.aspect.ts` doc). -/
def hasData : InModeValue → Bool
  | .on => true
  | .ro => true
  | .off => false

/-- The Data aspect's per-emission rule, from `data.aspect.ts`:
    `InMode.hasData(mode) ? value : undefined` (emitting `none` models
    emitting `undefined`). -/
def dataByValue {α : Type} (value : α) (mode : InModeValue) : Option α :=
  if hasData mode then some value else none

mutual

/-- A JSON-like input value: a string, an integer, or an object. -/
inductive DataVal where
  | strv : String → DataVal
  | intv : Int → DataVal
  | obj : DataFields → DataVal

/-- Fields of an object value, in order. -/
inductive DataFields where
  | nil : DataFields
  | cons : String → DataVal → DataFields → DataFields

end

mutual

/-- A control tree: a leaf control holding a value under a mode, or a
    container of named child controls under its own mode. -/
inductive DCtrl where
  | leaf : DataVal → InModeValue → DCtrl
  | group : InModeValue → DFields → DCtrl

/-- Named children of a container control. -/
inductive DFields where
  | nil : DFields
  | cons : String → DCtrl → DFields → DFields

end

mutual

/-- The submitted data of a control tree.  A leaf follows `data.aspect.ts`'s
    `dataByValue` rule verbatim; a container — modelled from the spec — is
    suppressed as a whole by its own mode and otherwise assembles a partial
    object from its children, omitting every field whose own data is
    suppressed (per-field, recursive suppression). -/
def dataOf : DCtrl → Option DataVal
  | .leaf v m => dataByValue v m
  | .group m fs => if hasData m then some (.obj (dataOfFields fs)) else none

/-- The per-field fold: a child whose data is `undefined` contributes no
    field to the parent object. -/
def dataOfFields : DFields → DataFields
  | .nil => .nil
  | .cons name c rest =>
    match dataOf c with
    | some d => .cons name d (dataOfFields rest)
    | none => dataOfFields rest

end

/-- The spec's example value `{name: "x", age: 3}`. -/
def nameAgeVal : DataVal :=
  .obj (.cons "name" (.strv "x") (.cons "age" (.intv 3) .nil))

/-- C9: the Data aspect emits the value unchanged whenever the mode permits
    data and `undefined` whenever it does not (so re-enabling the mode emits
    the original value again, the rule being a pure function of the current
    value and mode); on the spec's example `{name: "x", age: 3}` the whole
    value is suppressed under `off` and restored under `on`; and in a
    container the suppression is applied per field recursively: a disabled
    `name` child is dropped from the submitted object while its enabled
    `age` sibling is kept. -/
theorem data_suppression (m : InModeValue) :
    (∀ (α : Type) (value : α),
      (hasData m = false → dataByValue value m = none) ∧
      (hasData m = true → dataByValue value m = some value)) ∧
    dataByValue nameAgeVal InModeValue.off = none ∧
    dataByValue nameAgeVal InModeValue.on = some nameAgeVal ∧
    dataOf (DCtrl.group InModeValue.on
        (.cons "name" (.leaf (.strv "x") InModeValue.off)
          (.cons "age" (.leaf (.intv 3) InModeValue.on) .nil))) =
      some (.obj (.cons "age" (.intv 3) .nil)) := by
  refine ⟨fun α value => ⟨fun h => ?_, fun h => ?_⟩, rfl, rfl, rfl⟩
  · simp [dataByValue, h]
  · simp [dataByValue, h]

/-- C9 witness: the suppression and restoration rules at the disabled and
    enabled modes on the concrete example value. -/
theorem data_suppression_witness :
    dataByValue nameAgeVal InModeValue.off = none ∧
    dataByValue nameAgeVal InModeValue.on = some nameAgeVal :=
  ⟨((data_suppression InModeValue.off).1 DataVal nameAgeVal).1 rfl,
   ((data_suppression InModeValue.on).1 DataVal nameAgeVal).2 rfl⟩

end InputAspects
